import Mathlib

/-!
go-vanity-gen: the `generator` package.

A shallow embedding of `pkg/generator/generator.go` (`New`, `Index`, `Project`)
and the properties of the configuration resolver and of the two renderers.

Modelling conventions.

* A Go `string` is a finite sequence of bytes: `GoString := List UInt8`. The
  literals of the source are ASCII and are written `str "..."`.
* A Go slice that may be nil is `Slice α := Option (List α)`; `none` is the `nil`
  slice. The slices `paths` and `vanityPaths`, made by `make`, are plain lists.
* A Go `map[string]OutItem` is a `Finmap`: a finite map with unique keys and no
  order. `m[k] = v` is `Finmap.insert`, the comma-ok lookup is `Finmap.lookup`,
  the plain index expression `m[k]` is `lookupOrZero`, `len(m)` is `mapLen`.
* A function returning `(*T, error)` returns a pair `Option T × Option GoString`
  (the pointer, `none` for `nil`; the error message, `none` for a `nil` error).
* `yaml.Unmarshal` and `html/template` are outside the repository. The YAML decoder
  is a parameter `unmarshal`; the template engine is a parameter `Engine`.
  `range` over the decoded `paths` map visits each entry once in an unspecified
  order: `config.Paths` lists the entries in the order in which `range` yields them.
* `Index` and `Project` also return the sequence of calls they made into the
  template engine, in program order (`Call`).
-/

namespace GoVanity

/-- A Go string: a sequence of bytes. -/
abbrev GoString := List UInt8

/-- The bytes of an ASCII literal of the source. -/
def str (s : String) : GoString := s.data.map (fun c => UInt8.ofNat c.toNat)

/-- A Go slice; `none` is the nil slice. -/
abbrev Slice (α : Type) := Option (List α)

/-- Go `len` of a slice. -/
def Slice.len {α : Type} (s : Slice α) : Nat :=
  match s with
  | none => 0
  | some l => l.length

/-- Go `strings.HasPrefix`: `len(s) >= len(prefix) && s[:len(prefix)] == prefix`. -/
def HasPrefix (s pre : GoString) : Bool :=
  decide (pre.length ≤ s.length) && decide (s.take pre.length = pre)

/-- Go `strings.HasSuffix`: `len(s) >= len(suffix) && s[len(s)-len(suffix):] == suffix`. -/
def HasSuffix (s suf : GoString) : Bool :=
  decide (suf.length ≤ s.length) && decide (s.drop (s.length - suf.length) = suf)

/-- Go `strings.TrimSuffix`: `s[:len(s)-len(suffix)]` when `s` has the suffix, else `s`. -/
def TrimSuffix (s suf : GoString) : GoString :=
  if HasSuffix s suf then s.take (s.length - suf.length) else s

/-- Path is the parsed configuration of vanity paths. -/
structure Path where
  path : GoString
  repo : GoString
  display : GoString
  vcs : GoString
  packages : Slice GoString
deriving DecidableEq, Repr

/-- The anonymous struct that is the value type of `config.Paths`. -/
structure PathConfig where
  Repo : GoString
  Display : GoString
  VCS : GoString
  Packages : Slice GoString
deriving DecidableEq, Repr

/-- The vanity config. `Paths` holds the entries of the Go map in the order in which
`range` yields them; the keys of a `WellFormed` config are pairwise distinct. -/
structure config where
  Host : GoString
  Paths : List (GoString × PathConfig)
deriving DecidableEq, Repr

/-- The keys of a Go map are pairwise distinct. -/
def config.WellFormed (c : config) : Prop := (c.Paths.map Prod.fst).Nodup

instance (c : config) : Decidable c.WellFormed := by
  unfold config.WellFormed; infer_instance

/-- Generator generates vanity assets. -/
structure Generator where
  cfg : config
  paths : List Path
  host : GoString
deriving DecidableEq, Repr

/-- OutItem is a single output item. -/
structure OutItem where
  PkgNames : Slice GoString
  Content : Slice UInt8
deriving DecidableEq, Repr

/-- The zero value of `OutItem`: both slices nil. -/
def OutItem.zero : OutItem := { PkgNames := none, Content := none }

/-- A Go `map[string]OutItem`. -/
abbrev ItemMap := Finmap (fun _ : GoString => OutItem)

/-- Go `m[k]` as an expression: the stored item, or the zero value when `k` is absent. -/
def lookupOrZero (m : ItemMap) (k : GoString) : OutItem :=
  (m.lookup k).getD OutItem.zero

/-- Go `len(m)`. -/
def mapLen (m : ItemMap) : Nat := m.keys.card

/-- Out is the raw output from the generator. -/
structure Out where
  items : ItemMap
deriving DecidableEq

/-- Items returns the generated output items. -/
def Out.Items (o : Out) : ItemMap := o.items

/-- The display string synthesized for a GitHub repository:
`"%v %v/tree/master{/dir} %v/blob/master{/dir}/{file}#L{line}"`. -/
def githubDisplay (repo : GoString) : GoString :=
  repo ++ str " " ++ repo ++ str "/tree/master\x7b/dir\x7d " ++ repo
    ++ str "/blob/master\x7b/dir\x7d/\x7bfile\x7d#L\x7bline\x7d"

/-- The display string synthesized for a Bitbucket repository:
`"%v %v/src/default{/dir} %v/src/default{/dir}/{file}#{file}-{line}"`. -/
def bitbucketDisplay (repo : GoString) : GoString :=
  repo ++ str " " ++ repo ++ str "/src/default\x7b/dir\x7d " ++ repo
    ++ str "/src/default\x7b/dir\x7d/\x7bfile\x7d#\x7bfile\x7d-\x7bline\x7d"

/-- The first `switch` of the loop body of `New`: the display of the project. -/
def setDisplay (project : Path) (config : PathConfig) : Path :=
  if config.Display ≠ [] then project
  else if HasPrefix config.Repo (str "https://github.com/") then
    { project with display := githubDisplay config.Repo }
  else if HasPrefix config.Repo (str "https://bitbucket.org") then
    { project with display := bitbucketDisplay config.Repo }
  else project

/-- The `for path, config := range vanityCfg.Paths` loop of `New`, with the slice
`paths` built so far, and the final `return`. -/
def New.loop (vanityCfg : config) :
    List (GoString × PathConfig) → List Path → Option Generator × Option GoString
  | [], paths => (some { cfg := vanityCfg, paths := paths, host := vanityCfg.Host }, none)
  | (path, config) :: rest, paths =>
    let project : Path :=
      { path := TrimSuffix path (str "/")
        repo := config.Repo
        display := config.Display
        vcs := config.VCS
        packages := config.Packages }
    let project := setDisplay project config
    if config.VCS ≠ [] then
      if config.VCS ≠ str "bzr" ∧ config.VCS ≠ str "git" ∧ config.VCS ≠ str "hg"
          ∧ config.VCS ≠ str "svn" then
        (none, some (str "configuration for " ++ path ++ str ": unknown VCS " ++ config.VCS))
      else New.loop vanityCfg rest (paths ++ [project])
    else if HasPrefix config.Repo (str "https://github.com/") then
      New.loop vanityCfg rest (paths ++ [{ project with vcs := str "git" }])
    else
      (none, some (str "configuration for " ++ path ++ str ": cannot infer VCS from "
        ++ config.Repo))

/-- New parses the provided vanity config and returns a new Generator. -/
def New (unmarshal : List UInt8 → Except GoString config) (vanity : List UInt8) :
    Option Generator × Option GoString :=
  match unmarshal vanity with
  | .error err => (none, some (str "could not parse vanity config: " ++ err))
  | .ok vanityCfg => New.loop vanityCfg vanityCfg.Paths []

/-- The element type of the `Vanity` slice handed to the index template. -/
structure vanity where
  Path : GoString
  Repo : GoString
deriving DecidableEq, Repr

/-- The anonymous struct that `Index` executes the template against. -/
structure IndexData where
  Host : GoString
  Vanity : List vanity
deriving DecidableEq, Repr

/-- The anonymous struct that `Project` executes the template against. -/
structure ProjectData where
  Import : GoString
  Subpath : GoString
  Repo : GoString
  Display : GoString
  VCS : GoString
  Host : GoString
deriving DecidableEq, Repr

/-- The `data any` argument of `Execute`: one of the two anonymous structs. -/
inductive Data where
  | index (d : IndexData)
  | project (d : ProjectData)
deriving DecidableEq, Repr

/-- The part of `html/template` that the generator uses. `parse name input` is
`template.New(name).Parse(input)`; `execute t data` is `t.Execute(&buf, data)` on a
fresh buffer, giving the error or the bytes written to the buffer. Both are functions
of their arguments: the engine keeps no state between calls that changes a result. -/
structure Engine where
  Tmpl : Type
  parse : GoString → GoString → Except GoString Tmpl
  execute : Tmpl → Data → Except GoString (List UInt8)

/-- A call into the template engine. -/
inductive Call where
  | parse (name input : GoString)
  | execute (data : Data)
deriving DecidableEq, Repr

/-- Go `buf.Bytes()` of a `bytes.Buffer` that started as the zero value and to which
`written` was written: `b.buf[b.off:]`, which is the nil slice when nothing was written
(the buffer of the zero value is nil and is allocated by the first non-empty write). -/
def bufBytes (written : List UInt8) : Slice UInt8 :=
  if written = [] then none else some written

/-- The `for i, h := range gen.paths` loop of `Index`, from index `i` on, over the
slice `vanityPaths` allocated by `make([]vanity, len(gen.paths))`. -/
def Index.loop (host : GoString) : List Path → Nat → List vanity → List vanity
  | [], _, vanityPaths => vanityPaths
  | h :: rest, i, vanityPaths =>
    let vanityPaths := vanityPaths.modify (fun v => { v with Path := host ++ h.path }) i
    let vanityPaths := vanityPaths.modify (fun v => { v with Repo := h.repo }) i
    Index.loop host rest (i + 1) vanityPaths

/-- Index generates the index.html at the root of the assets tree. The second
component is the sequence of calls made into the template engine. -/
def Index (eng : Engine) (gen : Generator) (input : GoString) :
    (Slice UInt8 × Option GoString) × List Call :=
  match eng.parse (str "index") input with
  | .error err => ((none, some (str "failed to parse input: " ++ err)),
      [Call.parse (str "index") input])
  | .ok index =>
    let vanityPaths := List.replicate gen.paths.length ({ Path := [], Repo := [] } : vanity)
    let vanityPaths := Index.loop gen.host gen.paths 0 vanityPaths
    let data := Data.index { Host := gen.host, Vanity := vanityPaths }
    match eng.execute index data with
    | .error err => ((none, some (str "failed to execute template: " ++ err)),
        [Call.parse (str "index") input, Call.execute data])
    | .ok buf => ((bufBytes buf, none), [Call.parse (str "index") input, Call.execute data])

/-- The data that `Project` executes the template against for one path. -/
def projectData (host : GoString) (path : Path) : Data :=
  Data.project
    { Import := host ++ path.path
      Subpath := []
      Repo := path.repo
      Display := path.display
      VCS := path.vcs
      Host := host }

/-- The `for _, path := range gen.paths` loop of `Project` and the final `return`,
with the map `items` and the engine calls `calls` made so far. -/
def Project.loop (eng : Engine) (vanity : eng.Tmpl) (host : GoString) :
    List Path → ItemMap → List Call → (Option Out × Option GoString) × List Call
  | [], items, calls => ((some { items := items }, none), calls)
  | path :: rest, items, calls =>
    match eng.execute vanity (projectData host path) with
    | .error err => ((none, some (str "failed to execute template: " ++ err)),
        calls ++ [Call.execute (projectData host path)])
    | .ok buf =>
      Project.loop eng vanity host rest
        (items.insert path.path { PkgNames := path.packages, Content := bufBytes buf })
        (calls ++ [Call.execute (projectData host path)])

/-- Project generates the index.html for a project path and returns an Out object.
The second component is the sequence of calls made into the template engine. -/
def Project (eng : Engine) (gen : Generator) (input : GoString) :
    (Option Out × Option GoString) × List Call :=
  match eng.parse (str "vanity") input with
  | .error err => ((none, some (str "failed to parse input: " ++ err)),
      [Call.parse (str "vanity") input])
  | .ok vanity => Project.loop eng vanity gen.host gen.paths ∅ [Call.parse (str "vanity") input]

/-- Paths returns the list of paths extracted from the vanity configuration. -/
def Generator.Paths (gen : Generator) : List Path := gen.paths

/-! ## Auxiliary notions used in the proofs -/

/-- The condition under which the second `switch` of `New` returns an error. -/
def entryFails (e : PathConfig) : Prop :=
  (e.VCS ≠ [] ∧ e.VCS ≠ str "bzr" ∧ e.VCS ≠ str "git" ∧ e.VCS ≠ str "hg" ∧ e.VCS ≠ str "svn")
    ∨ (e.VCS = [] ∧ HasPrefix e.Repo (str "https://github.com/") = false)

instance (e : PathConfig) : Decidable (entryFails e) := by
  unfold entryFails; infer_instance

/-- The `Path` that one iteration of the loop of `New` appends when it does not fail. -/
def resolved (x : GoString × PathConfig) : Path :=
  { path := TrimSuffix x.1 (str "/")
    repo := x.2.Repo
    display :=
      (setDisplay
        { path := TrimSuffix x.1 (str "/"), repo := x.2.Repo, display := x.2.Display,
          vcs := x.2.VCS, packages := x.2.Packages } x.2).display
    vcs := if x.2.VCS ≠ [] then x.2.VCS else str "git"
    packages := x.2.Packages }

/-- The bytes that executing the project template for `p` writes to the buffer
(nothing when the execution fails). -/
def rendered (eng : Engine) (t : eng.Tmpl) (host : GoString) (p : Path) : List UInt8 :=
  match eng.execute t (projectData host p) with
  | .ok buf => buf
  | .error _ => []

/-- The item that `Project` stores for `p`. -/
def itemOf (eng : Engine) (t : eng.Tmpl) (host : GoString) (p : Path) : OutItem :=
  { PkgNames := p.packages, Content := bufBytes (rendered eng t host p) }

/-- The map after storing the items of `ps`, in order, into `items`. -/
def collect (eng : Engine) (t : eng.Tmpl) (host : GoString) (ps : List Path)
    (items : ItemMap) : ItemMap :=
  ps.foldl (fun m p => m.insert p.path (itemOf eng t host p)) items

/-- The execute calls that `Project` makes for the paths `ps`. -/
def executeCalls (host : GoString) (ps : List Path) : List Call :=
  ps.map (fun p => Call.execute (projectData host p))

/-! ## Concrete inputs -/

/-- The configuration of `generator_test.go` (`vanityCfg`), as decoded. -/
def testCfg : config :=
  { Host := str "go.example.com"
    Paths :=
      [ (str "/mycoolproject",
          { Repo := str "https://github.com/user/mycoolproject", Display := [], VCS := [],
            Packages := some [str "pkg/package1", str "pkg/package2"] }),
        (str "/myothercoolproject",
          { Repo := str "https://github.com/user/myothercoolproject", Display := [], VCS := [],
            Packages := none }) ] }

/-- The generator that `New` is expected to build from `testCfg`. -/
def testGen : Generator :=
  { cfg := testCfg
    host := str "go.example.com"
    paths :=
      [ { path := str "/mycoolproject"
          repo := str "https://github.com/user/mycoolproject"
          display := str ("https://github.com/user/mycoolproject "
            ++ "https://github.com/user/mycoolproject/tree/master\x7b/dir\x7d "
            ++ "https://github.com/user/mycoolproject/blob/master\x7b/dir\x7d/\x7bfile\x7d#L\x7bline\x7d")
          vcs := str "git"
          packages := some [str "pkg/package1", str "pkg/package2"] },
        { path := str "/myothercoolproject"
          repo := str "https://github.com/user/myothercoolproject"
          display := str ("https://github.com/user/myothercoolproject "
            ++ "https://github.com/user/myothercoolproject/tree/master\x7b/dir\x7d "
            ++ "https://github.com/user/myothercoolproject/blob/master\x7b/dir\x7d/\x7bfile\x7d#L\x7bline\x7d")
          vcs := str "git"
          packages := none } ] }

/-- A configuration with one entry whose explicit vcs is `cvs`. -/
def cvsCfg : config :=
  { Host := str "go.example.com"
    Paths := [ (str "/x", { Repo := str "https://github.com/u/x", Display := [],
                            VCS := str "cvs", Packages := none }) ] }

/-- A configuration with one entry without vcs whose repo is on an unknown host. -/
def exampleComCfg : config :=
  { Host := str "go.example.com"
    Paths := [ (str "/x", { Repo := str "https://example.com/x", Display := [],
                            VCS := [], Packages := none }) ] }

/-- A configuration with an explicit mercurial entry on Bitbucket, an explicit display,
an entry on an unknown host with explicit vcs, and keys with trailing slashes. -/
def mixedCfg : config :=
  { Host := str "go.example.com"
    Paths :=
      [ (str "/a//", { Repo := str "https://bitbucket.org/u/a", Display := [],
                       VCS := str "hg", Packages := none }),
        (str "/", { Repo := str "https://github.com/u/b", Display := str "shown",
                    VCS := str "svn", Packages := some [] }),
        (str "/c", { Repo := str "https://example.com/c", Display := [],
                     VCS := str "bzr", Packages := some [str "p"] }) ] }

/-- The generator that `New` is expected to build from `mixedCfg`. -/
def mixedGen : Generator :=
  { cfg := mixedCfg
    host := str "go.example.com"
    paths :=
      [ { path := str "/a/"
          repo := str "https://bitbucket.org/u/a"
          display := str ("https://bitbucket.org/u/a "
            ++ "https://bitbucket.org/u/a/src/default\x7b/dir\x7d "
            ++ "https://bitbucket.org/u/a/src/default\x7b/dir\x7d/\x7bfile\x7d#\x7bfile\x7d-\x7bline\x7d")
          vcs := str "hg"
          packages := none },
        { path := []
          repo := str "https://github.com/u/b"
          display := str "shown"
          vcs := str "svn"
          packages := some [] },
        { path := str "/c"
          repo := str "https://example.com/c"
          display := []
          vcs := str "bzr"
          packages := some [str "p"] } ] }

/-- A configuration whose two distinct keys differ by one trailing slash. -/
def dupCfg : config :=
  { Host := str "go.example.com"
    Paths :=
      [ (str "/a", { Repo := str "https://github.com/u/a", Display := [], VCS := [],
                     Packages := none }),
        (str "/a/", { Repo := str "https://github.com/u/b", Display := str "d", VCS := [],
                      Packages := some [str "p"] }) ] }

/-- The generator that `New` builds from `dupCfg`: two Paths with path `/a`. -/
def dupGen : Generator :=
  { cfg := dupCfg
    host := str "go.example.com"
    paths :=
      [ { path := str "/a"
          repo := str "https://github.com/u/a"
          display := str ("https://github.com/u/a "
            ++ "https://github.com/u/a/tree/master\x7b/dir\x7d "
            ++ "https://github.com/u/a/blob/master\x7b/dir\x7d/\x7bfile\x7d#L\x7bline\x7d")
          vcs := str "git"
          packages := none },
        { path := str "/a"
          repo := str "https://github.com/u/b"
          display := str "d"
          vcs := str "git"
          packages := some [str "p"] } ] }

/-- The output of `Project` on `dupGen` with the toy engine and template `x`. -/
def dupOut : Out :=
  { items := (∅ : ItemMap).insert (str "/a")
      { PkgNames := some [str "p"], Content := some (str "xgo.example.com/a") } }

/-- The output of `Project` on `testGen` with the toy engine and template `x`. -/
def testOut : Out :=
  { items := ((∅ : ItemMap).insert (str "/mycoolproject")
        { PkgNames := some [str "pkg/package1", str "pkg/package2"],
          Content := some (str "xgo.example.com/mycoolproject") }).insert
      (str "/myothercoolproject")
        { PkgNames := none, Content := some (str "xgo.example.com/myothercoolproject") } }

/-- The output of `Project` on `testGenSwapped`, as built in the order of its Paths. -/
def testOutSwapped : Out :=
  { items := ((∅ : ItemMap).insert (str "/myothercoolproject")
        { PkgNames := none, Content := some (str "xgo.example.com/myothercoolproject") }).insert
      (str "/mycoolproject")
        { PkgNames := some [str "pkg/package1", str "pkg/package2"],
          Content := some (str "xgo.example.com/mycoolproject") } }

/-- The Paths of `testGen` in the other order. -/
def testGenSwapped : Generator :=
  { cfg := testCfg, host := str "go.example.com", paths := testGen.paths.reverse }

/-- A generator whose second Path makes the toy engine fail. -/
def hgGen : Generator :=
  { cfg := { Host := str "h", Paths := [] }
    host := str "h"
    paths :=
      [ { path := str "/a", repo := str "r1", display := [], vcs := str "git", packages := none },
        { path := str "/b", repo := str "r2", display := [], vcs := str "hg", packages := none },
        { path := str "/c", repo := str "r3", display := [], vcs := str "git", packages := none } ] }

/-- A decoder that yields `c` for every document. -/
def decodeTo (c : config) : List UInt8 → Except GoString config := fun _ => .ok c

/-- A toy template engine: a template is its text; parsing fails on the empty text;
executing fails on a project whose VCS is `hg`, and otherwise writes the text followed
by the `Import` (project data) or the `Host` (index data). -/
def toyEngine : Engine :=
  { Tmpl := GoString
    parse := fun _ input => if input = [] then .error (str "empty") else .ok input
    execute := fun t data =>
      match data with
      | .index d => .ok (t ++ d.Host)
      | .project d => if d.VCS = str "hg" then .error (str "hg") else .ok (t ++ d.Import) }

end GoVanity

namespace GoVanity

/-! ## The configuration resolver: auxiliary facts about `New` -/

theorem setDisplay_fields (project : Path) (c : PathConfig) :
    (setDisplay project c).path = project.path ∧ (setDisplay project c).repo = project.repo
      ∧ (setDisplay project c).vcs = project.vcs
      ∧ (setDisplay project c).packages = project.packages := by
  unfold setDisplay
  split_ifs <;> simp

theorem setDisplay_eta (project : Path) (c : PathConfig) :
    setDisplay project c =
      { path := project.path, repo := project.repo, display := (setDisplay project c).display,
        vcs := project.vcs, packages := project.packages } := by
  obtain ⟨h1, h2, h3, h4⟩ := setDisplay_fields project c
  cases hsd : setDisplay project c
  simp_all

theorem loop_step_ok (cfg : config) (k : GoString) (e : PathConfig)
    (rest : List (GoString × PathConfig)) (acc : List Path) (h : ¬ entryFails e) :
    New.loop cfg ((k, e) :: rest) acc = New.loop cfg rest (acc ++ [resolved (k, e)]) := by
  unfold entryFails at h
  rw [New.loop]
  by_cases hv : e.VCS = []
  · have hg : HasPrefix e.Repo (str "https://github.com/") = true := by
      by_contra hc
      exact h (Or.inr ⟨hv, by simpa using hc⟩)
    simp only [hv, ne_eq, not_true_eq_false, if_false, hg, if_true]
    congr 2
    rw [setDisplay_eta]
    simp [resolved, hv]
  · have hok : ¬ (e.VCS ≠ str "bzr" ∧ e.VCS ≠ str "git" ∧ e.VCS ≠ str "hg"
        ∧ e.VCS ≠ str "svn") := fun hc => h (Or.inl ⟨hv, hc⟩)
    simp only [ne_eq, hv, not_false_eq_true, if_true]
    rw [if_neg hok]
    congr 2
    rw [setDisplay_eta]
    simp [resolved, hv]

theorem loop_step_fail (cfg : config) (k : GoString) (e : PathConfig)
    (rest : List (GoString × PathConfig)) (acc : List Path) (h : entryFails e) :
    ∃ msg, New.loop cfg ((k, e) :: rest) acc = (none, some msg) := by
  unfold entryFails at h
  rw [New.loop]
  rcases h with ⟨hv, hbad⟩ | ⟨hv, hg⟩
  · refine ⟨str "configuration for " ++ k ++ str ": unknown VCS " ++ e.VCS, ?_⟩
    simp only [ne_eq, hv, not_false_eq_true, if_true]
    rw [if_pos hbad]
  · refine ⟨str "configuration for " ++ k ++ str ": cannot infer VCS from " ++ e.Repo, ?_⟩
    simp only [hv, ne_eq, not_true_eq_false, if_false, hg]
    rfl

/-- When no entry fails, the loop appends the resolved entries in order. -/
theorem loop_ok (cfg : config) (es : List (GoString × PathConfig)) (acc : List Path)
    (h : ∀ x ∈ es, ¬ entryFails x.2) :
    New.loop cfg es acc
      = (some { cfg := cfg, paths := acc ++ es.map resolved, host := cfg.Host }, none) := by
  induction es generalizing acc with
  | nil => simp [New.loop]
  | cons x rest ih =>
    obtain ⟨k, e⟩ := x
    rw [loop_step_ok cfg k e rest acc (h (k, e) (List.mem_cons_self _ _))]
    rw [ih _ (fun y hy => h y (List.mem_cons_of_mem _ hy))]
    simp

/-- When some entry fails, the loop returns an error and no generator. -/
theorem loop_fail (cfg : config) (es : List (GoString × PathConfig)) (acc : List Path)
    (h : ∃ x ∈ es, entryFails x.2) :
    ∃ msg, New.loop cfg es acc = (none, some msg) := by
  induction es generalizing acc with
  | nil => simp at h
  | cons x rest ih =>
    obtain ⟨k, e⟩ := x
    by_cases hx : entryFails e
    · exact loop_step_fail cfg k e rest acc hx
    · rw [loop_step_ok cfg k e rest acc hx]
      apply ih
      obtain ⟨y, hy, hyf⟩ := h
      rcases List.mem_cons.mp hy with rfl | hy
      · exact absurd hyf hx
      · exact ⟨y, hy, hyf⟩

/-- A successful `New` on a decoded configuration: no entry fails, and the generator
holds the resolved entries in iteration order. -/
theorem New_ok (unmarshal : List UInt8 → Except GoString config) (vanity : List UInt8)
    (cfg : config) (gen : Generator) (hparse : unmarshal vanity = .ok cfg)
    (hnew : New unmarshal vanity = (some gen, none)) :
    (∀ x ∈ cfg.Paths, ¬ entryFails x.2)
      ∧ gen = { cfg := cfg, paths := cfg.Paths.map resolved, host := cfg.Host } := by
  unfold New at hnew
  rw [hparse] at hnew
  simp only at hnew
  by_cases hf : ∃ x ∈ cfg.Paths, entryFails x.2
  · obtain ⟨msg, hmsg⟩ := loop_fail cfg cfg.Paths [] hf
    rw [hmsg] at hnew
    simp at hnew
  · have hall : ∀ x ∈ cfg.Paths, ¬ entryFails x.2 := fun x hx hxf => hf ⟨x, hx, hxf⟩
    refine ⟨hall, ?_⟩
    rw [loop_ok cfg cfg.Paths [] hall] at hnew
    simp only [List.nil_append, Prod.mk.injEq, Option.some.injEq, and_true] at hnew
    exact hnew.symm

/-- The entry at index `i` of a successful `New` is the resolved entry `i`. -/
theorem New_ok_get (unmarshal : List UInt8 → Except GoString config) (vanity : List UInt8)
    (cfg : config) (gen : Generator) (hparse : unmarshal vanity = .ok cfg)
    (hnew : New unmarshal vanity = (some gen, none)) (i : Nat) (x : GoString × PathConfig)
    (hx : cfg.Paths[i]? = some x) :
    gen.paths[i]? = some (resolved x) ∧ ¬ entryFails x.2 := by
  obtain ⟨hall, hgen⟩ := New_ok unmarshal vanity cfg gen hparse hnew
  subst hgen
  refine ⟨by simp [List.getElem?_map, hx], hall x ?_⟩
  exact List.getElem?_mem hx

theorem str_slash : str "/" = [47] := by decide

theorem TrimSuffix_slash_append (s : GoString) : TrimSuffix (s ++ str "/") (str "/") = s := by
  rw [str_slash]
  simp [TrimSuffix, HasSuffix]

theorem TrimSuffix_slash_of_not (k : GoString) (h : ¬ ∃ s, k = s ++ str "/") :
    TrimSuffix k (str "/") = k := by
  rw [str_slash] at h ⊢
  unfold TrimSuffix
  rw [if_neg]
  intro hs
  apply h
  simp only [HasSuffix, List.length_singleton, Bool.and_eq_true, decide_eq_true_eq] at hs
  refine ⟨k.take (k.length - 1), ?_⟩
  conv_lhs => rw [← List.take_append_drop (k.length - 1) k]
  rw [hs.2]

/-! ## The configuration resolver: results -/

set_option maxRecDepth 100000

/-- C1: for an entry `(k, e)` at position `i` of a configuration on which `New` succeeds,
the display of the Path built from it is decided in this order: a non-empty display
of the entry is used verbatim; otherwise a repo starting with `https://github.com/`
gives `<repo> <repo>/tree/master{/dir} <repo>/blob/master{/dir}/{file}#L{line}`;
otherwise a repo starting with `https://bitbucket.org` gives
`<repo> <repo>/src/default{/dir} <repo>/src/default{/dir}/{file}#{file}-{line}`;
otherwise the display is empty. The placeholders stay literal. -/
theorem New_display_cases (unmarshal : List UInt8 → Except GoString config)
    (vanity : List UInt8) (cfg : config) (gen : Generator)
    (hparse : unmarshal vanity = .ok cfg) (hnew : New unmarshal vanity = (some gen, none))
    (i : Nat) (k : GoString) (e : PathConfig) (hentry : cfg.Paths[i]? = some (k, e)) :
    ∃ p : Path, gen.paths[i]? = some p
      ∧ (e.Display ≠ [] → p.display = e.Display)
      ∧ (e.Display = [] → HasPrefix e.Repo (str "https://github.com/") = true →
          p.display = e.Repo ++ str " " ++ e.Repo ++ str "/tree/master\x7b/dir\x7d " ++ e.Repo
            ++ str "/blob/master\x7b/dir\x7d/\x7bfile\x7d#L\x7bline\x7d")
      ∧ (e.Display = [] → HasPrefix e.Repo (str "https://github.com/") = false →
          HasPrefix e.Repo (str "https://bitbucket.org") = true →
          p.display = e.Repo ++ str " " ++ e.Repo ++ str "/src/default\x7b/dir\x7d " ++ e.Repo
            ++ str "/src/default\x7b/dir\x7d/\x7bfile\x7d#\x7bfile\x7d-\x7bline\x7d")
      ∧ (e.Display = [] → HasPrefix e.Repo (str "https://github.com/") = false →
          HasPrefix e.Repo (str "https://bitbucket.org") = false → p.display = []) := by
  obtain ⟨hp, -⟩ := New_ok_get unmarshal vanity cfg gen hparse hnew i (k, e) hentry
  refine ⟨resolved (k, e), hp, ?_, ?_, ?_, ?_⟩
  · intro hd
    simp [resolved, setDisplay, hd]
  · intro hd hg
    simp [resolved, setDisplay, hd, hg, githubDisplay]
  · intro hd hg hb
    simp [resolved, setDisplay, hd, hg, hb, bitbucketDisplay]
  · intro hd hg hb
    simp [resolved, setDisplay, hd, hg, hb]

/-- Witness of C1: the first entry of the test configuration,
repo `https://github.com/user/mycoolproject`. -/
theorem New_display_cases_witness :
    New (decodeTo testCfg) [] = (some testGen, none)
      ∧ ∃ p, testGen.paths[0]? = some p
        ∧ p.display = str ("https://github.com/user/mycoolproject "
            ++ "https://github.com/user/mycoolproject/tree/master\x7b/dir\x7d "
            ++ "https://github.com/user/mycoolproject/blob/master\x7b/dir\x7d/\x7bfile\x7d#L\x7bline\x7d") := by
  refine ⟨by decide, ?_⟩
  obtain ⟨p, hp, -, hgh, -, -⟩ :=
    New_display_cases (decodeTo testCfg) [] testCfg testGen rfl (by decide) 0
      (str "/mycoolproject")
      { Repo := str "https://github.com/user/mycoolproject", Display := [], VCS := [],
        Packages := some [str "pkg/package1", str "pkg/package2"] } rfl
  exact ⟨p, hp, (hgh rfl (by decide)).trans (by decide)⟩

/-- C2: for a document that parses, `New` returns an error exactly when some entry
has a non-empty vcs outside bzr, git, hg, svn, or an empty vcs and a repo that does not
start with `https://github.com/`; with an error it returns no Generator. In particular
an explicit vcs `cvs` fails, and repo `https://example.com/x` without vcs fails. -/
theorem New_error_iff (unmarshal : List UInt8 → Except GoString config)
    (vanity : List UInt8) (cfg : config) (hparse : unmarshal vanity = .ok cfg) :
    ((New unmarshal vanity).2 ≠ none ↔
        ∃ (k : GoString) (e : PathConfig), (k, e) ∈ cfg.Paths ∧
          ((e.VCS ≠ [] ∧ e.VCS ≠ str "bzr" ∧ e.VCS ≠ str "git" ∧ e.VCS ≠ str "hg"
              ∧ e.VCS ≠ str "svn")
            ∨ (e.VCS = [] ∧ HasPrefix e.Repo (str "https://github.com/") = false)))
      ∧ ((New unmarshal vanity).2 ≠ none → (New unmarshal vanity).1 = none)
      ∧ (∀ (k : GoString) (e : PathConfig), (k, e) ∈ cfg.Paths → e.VCS = str "cvs" →
          (New unmarshal vanity).2 ≠ none ∧ (New unmarshal vanity).1 = none)
      ∧ (∀ (k : GoString) (e : PathConfig), (k, e) ∈ cfg.Paths → e.VCS = [] → e.Repo = str "https://example.com/x" →
          (New unmarshal vanity).2 ≠ none ∧ (New unmarshal vanity).1 = none) := by
  have hcases : (∃ x ∈ cfg.Paths, entryFails x.2) ∨ (∀ x ∈ cfg.Paths, ¬ entryFails x.2) := by
    by_cases hf : ∃ x ∈ cfg.Paths, entryFails x.2
    · exact Or.inl hf
    · exact Or.inr (fun x hx hxf => hf ⟨x, hx, hxf⟩)
  have hNew : New unmarshal vanity = New.loop cfg cfg.Paths [] := by
    unfold New
    rw [hparse]
  have hfail : (∃ x ∈ cfg.Paths, entryFails x.2) →
      (New unmarshal vanity).2 ≠ none ∧ (New unmarshal vanity).1 = none := by
    intro hf
    obtain ⟨msg, hmsg⟩ := loop_fail cfg cfg.Paths [] hf
    rw [hNew, hmsg]
    simp
  refine ⟨⟨?_, ?_⟩, ?_, ?_, ?_⟩
  · intro herr
    rcases hcases with hf | hall
    · obtain ⟨⟨k, e⟩, hx, hxf⟩ := hf
      exact ⟨k, e, hx, hxf⟩
    · rw [hNew, loop_ok cfg cfg.Paths [] hall] at herr
      simp at herr
  · rintro ⟨k, e, hx, hxf⟩
    exact (hfail ⟨(k, e), hx, hxf⟩).1
  · intro herr
    rcases hcases with hf | hall
    · exact (hfail hf).2
    · rw [hNew, loop_ok cfg cfg.Paths [] hall] at herr
      simp at herr
  · intro k e hx hv
    refine hfail ⟨(k, e), hx, Or.inl ?_⟩
    simp only [hv]
    decide
  · intro k e hx hv hr
    refine hfail ⟨(k, e), hx, Or.inr ⟨hv, ?_⟩⟩
    simp only [hr]
    decide

/-- Witness of C2: a configuration with vcs `cvs`, and one with repo
`https://example.com/x` and no vcs; both fail without a Generator. -/
theorem New_error_iff_witness :
    (decodeTo cvsCfg [] = .ok cvsCfg
        ∧ (New (decodeTo cvsCfg) []).2 ≠ none ∧ (New (decodeTo cvsCfg) []).1 = none)
      ∧ (decodeTo exampleComCfg [] = .ok exampleComCfg
        ∧ (New (decodeTo exampleComCfg) []).2 ≠ none
        ∧ (New (decodeTo exampleComCfg) []).1 = none) :=
  ⟨⟨rfl, (New_error_iff (decodeTo cvsCfg) [] cvsCfg rfl).2.2.1 (str "/x")
      { Repo := str "https://github.com/u/x", Display := [], VCS := str "cvs",
        Packages := none } (by decide) rfl⟩,
   ⟨rfl, (New_error_iff (decodeTo exampleComCfg) [] exampleComCfg rfl).2.2.2 (str "/x")
      { Repo := str "https://example.com/x", Display := [], VCS := [],
        Packages := none } (by decide) rfl rfl⟩⟩

/-- C3: on a configuration on which `New` succeeds, every resulting Path has a vcs among
bzr, git, hg, svn; the Path built from entry `i` has the explicit vcs of the entry when
one is given, and `git` when none is given, in which case the repo of the entry starts
with `https://github.com/`. -/
theorem New_vcs_known (unmarshal : List UInt8 → Except GoString config)
    (vanity : List UInt8) (cfg : config) (gen : Generator)
    (hparse : unmarshal vanity = .ok cfg) (hnew : New unmarshal vanity = (some gen, none)) :
    (∀ p ∈ gen.paths,
        p.vcs = str "bzr" ∨ p.vcs = str "git" ∨ p.vcs = str "hg" ∨ p.vcs = str "svn")
      ∧ ∀ (i : Nat) (k : GoString) (e : PathConfig), cfg.Paths[i]? = some (k, e) →
          ∃ p : Path, gen.paths[i]? = some p
            ∧ (e.VCS ≠ [] → p.vcs = e.VCS)
            ∧ (e.VCS = [] →
                p.vcs = str "git" ∧ HasPrefix e.Repo (str "https://github.com/") = true) := by
  obtain ⟨hall, hgen⟩ := New_ok unmarshal vanity cfg gen hparse hnew
  constructor
  · intro p hp
    subst hgen
    simp only [List.mem_map] at hp
    obtain ⟨x, hx, rfl⟩ := hp
    have hnf := hall x hx
    unfold entryFails at hnf
    by_cases hv : x.2.VCS = []
    · simp [resolved, hv]
    · simp only [resolved, ne_eq, hv, not_false_eq_true, if_true]
      by_contra hc
      simp only [not_or] at hc
      exact hnf (Or.inl ⟨hv, hc.1, hc.2.1, hc.2.2.1, hc.2.2.2⟩)
  · intro i k e hentry
    obtain ⟨hp, hnf⟩ := New_ok_get unmarshal vanity cfg gen hparse hnew i (k, e) hentry
    refine ⟨resolved (k, e), hp, ?_, ?_⟩
    · intro hv
      simp [resolved, hv]
    · intro hv
      refine ⟨by simp [resolved, hv], ?_⟩
      by_contra hc
      exact hnf (Or.inr ⟨hv, by simpa using hc⟩)

/-- Witness of C3: the test configuration, whose two entries give no vcs. -/
theorem New_vcs_known_witness :
    New (decodeTo testCfg) [] = (some testGen, none)
      ∧ (∀ p ∈ testGen.paths,
          p.vcs = str "bzr" ∨ p.vcs = str "git" ∨ p.vcs = str "hg" ∨ p.vcs = str "svn") :=
  ⟨by decide, (New_vcs_known (decodeTo testCfg) [] testCfg testGen rfl (by decide)).1⟩

/-- C8: on a configuration on which `New` succeeds there is one Path per entry of the
paths mapping, and the Path built from the entry with key `k` has path `k` without its
last byte when `k` ends in `/` (so `/a//` gives `/a/` and `/` gives the empty string),
path `k` otherwise, and the repo and packages of the entry. -/
theorem New_one_path_per_entry (unmarshal : List UInt8 → Except GoString config)
    (vanity : List UInt8) (cfg : config) (gen : Generator)
    (hparse : unmarshal vanity = .ok cfg) (hnew : New unmarshal vanity = (some gen, none)) :
    gen.paths.length = cfg.Paths.length
      ∧ ∀ (i : Nat) (k : GoString) (e : PathConfig), cfg.Paths[i]? = some (k, e) →
          ∃ p : Path, gen.paths[i]? = some p
            ∧ (∀ s, k = s ++ str "/" → p.path = s)
            ∧ ((¬ ∃ s, k = s ++ str "/") → p.path = k)
            ∧ (k = str "/a//" → p.path = str "/a/")
            ∧ (k = str "/" → p.path = [])
            ∧ p.repo = e.Repo ∧ p.packages = e.Packages := by
  obtain ⟨-, hgen⟩ := New_ok unmarshal vanity cfg gen hparse hnew
  constructor
  · subst hgen
    simp
  · intro i k e hentry
    obtain ⟨hp, -⟩ := New_ok_get unmarshal vanity cfg gen hparse hnew i (k, e) hentry
    refine ⟨resolved (k, e), hp, ?_, ?_, ?_, ?_, rfl, rfl⟩
    · rintro s rfl
      exact TrimSuffix_slash_append s
    · intro hk
      exact TrimSuffix_slash_of_not k hk
    · rintro rfl
      show TrimSuffix (str "/a//") (str "/") = str "/a/"
      decide
    · rintro rfl
      show TrimSuffix (str "/") (str "/") = []
      decide

/-- Witness of C8: a configuration with the keys `/a//`, `/` and `/c`. -/
theorem New_one_path_per_entry_witness :
    New (decodeTo mixedCfg) [] = (some mixedGen, none)
      ∧ mixedGen.paths.length = mixedCfg.Paths.length :=
  ⟨by decide, (New_one_path_per_entry (decodeTo mixedCfg) [] mixedCfg mixedGen rfl
    (by decide)).1⟩

/-! ## The template renderer: auxiliary facts about `Project` and `Index` -/

theorem executeCalls_append (host : GoString) (ps qs : List Path) :
    executeCalls host (ps ++ qs) = executeCalls host ps ++ executeCalls host qs := by
  simp [executeCalls]

theorem collect_cons (eng : Engine) (t : eng.Tmpl) (host : GoString) (p : Path)
    (ps : List Path) (items : ItemMap) :
    collect eng t host (p :: ps) items
      = collect eng t host ps (items.insert p.path (itemOf eng t host p)) := rfl

theorem collect_append (eng : Engine) (t : eng.Tmpl) (host : GoString) (ps qs : List Path)
    (items : ItemMap) :
    collect eng t host (ps ++ qs) items = collect eng t host qs (collect eng t host ps items) := by
  simp [collect, List.foldl_append]

/-- When every execution succeeds, the loop of `Project` stores every item and makes one
execute call per path. -/
theorem Project_loop_ok (eng : Engine) (t : eng.Tmpl) (host : GoString) (ps : List Path)
    (items : ItemMap) (calls : List Call)
    (h : ∀ p ∈ ps, ∃ buf, eng.execute t (projectData host p) = .ok buf) :
    Project.loop eng t host ps items calls
      = ((some { items := collect eng t host ps items }, none),
          calls ++ executeCalls host ps) := by
  induction ps generalizing items calls with
  | nil => simp [Project.loop, collect, executeCalls]
  | cons p rest ih =>
    obtain ⟨buf, hbuf⟩ := h p (List.mem_cons_self _ _)
    rw [Project.loop]
    simp only [hbuf]
    rw [ih _ _ (fun q hq => h q (List.mem_cons_of_mem _ hq))]
    have hitem : ({ PkgNames := p.packages, Content := bufBytes buf } : OutItem)
        = itemOf eng t host p := by
      simp [itemOf, rendered, hbuf]
    rw [hitem, collect_cons]
    simp [executeCalls]

/-- When the execution fails first on `p`, the loop of `Project` returns the error after
the execute calls for the paths up to `p`, and makes no further call. -/
theorem Project_loop_fail (eng : Engine) (t : eng.Tmpl) (host : GoString)
    (pre : List Path) (p : Path) (post : List Path) (err : GoString)
    (items : ItemMap) (calls : List Call)
    (hpre : ∀ q ∈ pre, ∃ buf, eng.execute t (projectData host q) = .ok buf)
    (hp : eng.execute t (projectData host p) = .error err) :
    Project.loop eng t host (pre ++ p :: post) items calls
      = ((none, some (str "failed to execute template: " ++ err)),
          calls ++ executeCalls host (pre ++ [p])) := by
  induction pre generalizing items calls with
  | nil =>
    rw [List.nil_append, Project.loop]
    simp only [hp]
    simp [executeCalls]
  | cons q rest ih =>
    obtain ⟨buf, hbuf⟩ := hpre q (List.mem_cons_self _ _)
    rw [List.cons_append, Project.loop]
    simp only [hbuf]
    rw [ih _ _ (fun r hr => hpre r (List.mem_cons_of_mem _ hr))]
    simp [executeCalls]

/-- A list with a failing path splits at the first failing path. -/
theorem first_failure (eng : Engine) (t : eng.Tmpl) (host : GoString) (ps : List Path)
    (h : ∃ p ∈ ps, ∃ err, eng.execute t (projectData host p) = .error err) :
    ∃ pre p post err, ps = pre ++ p :: post
      ∧ (∀ q ∈ pre, ∃ buf, eng.execute t (projectData host q) = .ok buf)
      ∧ eng.execute t (projectData host p) = .error err := by
  induction ps with
  | nil => simp at h
  | cons q rest ih =>
    cases hq : eng.execute t (projectData host q) with
    | error err => exact ⟨[], q, rest, err, rfl, by simp, hq⟩
    | ok buf =>
      have hrest : ∃ p ∈ rest, ∃ err, eng.execute t (projectData host p) = .error err := by
        obtain ⟨p, hp, err, herr⟩ := h
        rcases List.mem_cons.mp hp with rfl | hp
        · rw [hq] at herr
          cases herr
        · exact ⟨p, hp, err, herr⟩
      obtain ⟨pre, p, post, err, hsplit, hpre, hp⟩ := ih hrest
      refine ⟨q :: pre, p, post, err, by simp [hsplit], ?_, hp⟩
      intro r hr
      rcases List.mem_cons.mp hr with rfl | hr
      · exact ⟨buf, hq⟩
      · exact hpre r hr

/-- Every path executes, or some path fails. -/
theorem all_ok_or_failure (eng : Engine) (t : eng.Tmpl) (host : GoString) (ps : List Path) :
    (∀ p ∈ ps, ∃ buf, eng.execute t (projectData host p) = .ok buf)
      ∨ (∃ p ∈ ps, ∃ err, eng.execute t (projectData host p) = .error err) := by
  by_cases h : ∃ p ∈ ps, ∃ err, eng.execute t (projectData host p) = .error err
  · exact Or.inr h
  · left
    intro p hp
    cases hq : eng.execute t (projectData host p) with
    | error err => exact absurd ⟨p, hp, err, hq⟩ h
    | ok buf => exact ⟨buf, rfl⟩

/-- A key that is the path of no stored Path is looked up in the initial map. -/
theorem lookup_collect_of_not_mem (eng : Engine) (t : eng.Tmpl) (host : GoString)
    (ps : List Path) (items : ItemMap) (k : GoString) (hk : ∀ q ∈ ps, q.path ≠ k) :
    (collect eng t host ps items).lookup k = items.lookup k := by
  induction ps generalizing items with
  | nil => rfl
  | cons p rest ih =>
    rw [collect_cons, ih _ (fun q hq => hk q (List.mem_cons_of_mem _ hq))]
    exact Finmap.lookup_insert_of_ne _ (fun heq => hk p (List.mem_cons_self _ _) heq.symm)

/-- The entry under a path is the item of the last Path of the list with that path. -/
theorem lookup_collect_last (eng : Engine) (t : eng.Tmpl) (host : GoString)
    (pre : List Path) (p : Path) (post : List Path) (items : ItemMap)
    (hpost : ∀ q ∈ post, q.path ≠ p.path) :
    (collect eng t host (pre ++ p :: post) items).lookup p.path = some (itemOf eng t host p) := by
  rw [collect_append, collect_cons, lookup_collect_of_not_mem eng t host post _ p.path hpost]
  exact Finmap.lookup_insert _

/-- The keys of the collected map. -/
theorem keys_collect (eng : Engine) (t : eng.Tmpl) (host : GoString) (ps : List Path)
    (items : ItemMap) :
    (collect eng t host ps items).keys = items.keys ∪ (ps.map (fun p => p.path)).toFinset := by
  induction ps generalizing items with
  | nil => simp [collect]
  | cons p rest ih =>
    rw [collect_cons, ih]
    ext k
    simp only [Finset.mem_union, Finmap.mem_keys, Finmap.mem_insert, List.toFinset_cons,
      List.map_cons, Finset.mem_insert, List.mem_toFinset]
    tauto

/-- With pairwise distinct paths, each Path is the last one with its path. -/
theorem split_of_nodup (ps : List Path) (hnd : (ps.map (fun p => p.path)).Nodup)
    (p : Path) (hp : p ∈ ps) :
    ∃ pre post, ps = pre ++ p :: post ∧ ∀ q ∈ post, q.path ≠ p.path := by
  obtain ⟨pre, post, rfl⟩ := List.append_of_mem hp
  refine ⟨pre, post, rfl, ?_⟩
  intro q hq heq
  rw [List.map_append, List.map_cons, List.nodup_append] at hnd
  have hcons := hnd.2.1
  rw [List.nodup_cons] at hcons
  exact hcons.1 (heq ▸ List.mem_map_of_mem _ hq)

/-- Modifying the slot just after `done` changes the head of what follows. -/
theorem modify_length_append (f : vanity → vanity) (done : List vanity) (a : vanity)
    (tl : List vanity) : (done ++ a :: tl).modify f done.length = done ++ f a :: tl := by
  induction done with
  | nil => simp
  | cons d ds ih => simp [ih]

/-- The loop of `Index` fills the slots from `done.length` on, in the order of the paths. -/
theorem Index_loop_fill (host : GoString) (ps : List Path) (done : List vanity) :
    Index.loop host ps done.length
        (done ++ List.replicate ps.length ({ Path := [], Repo := [] } : vanity))
      = done ++ ps.map (fun p => ({ Path := host ++ p.path, Repo := p.repo } : vanity)) := by
  induction ps generalizing done with
  | nil => simp [Index.loop]
  | cons h rest ih =>
    rw [Index.loop]
    simp only [List.length_cons, List.replicate_succ]
    rw [modify_length_append, modify_length_append]
    have hlen : done.length + 1 = (done ++ [({ Path := host ++ h.path, Repo := h.repo } : vanity)]).length := by
      simp
    have hlist : done ++ ({ Path := host ++ h.path, Repo := h.repo } : vanity)
          :: List.replicate rest.length ({ Path := [], Repo := [] } : vanity)
        = (done ++ [({ Path := host ++ h.path, Repo := h.repo } : vanity)])
          ++ List.replicate rest.length ({ Path := [], Repo := [] } : vanity) := by
      simp
    rw [hlen, hlist, ih]
    simp

/-! ## The template renderer: results -/

/-- C4: for a Generator with pairwise distinct path values and a project template that
parses and executes on every Path, the output of `Project` maps the path of each Path to
the item whose PkgNames is the packages of the Path and whose Content is what the
template wrote when executed against Import = host ++ path, Repo, Display, VCS, Host
(Subpath empty). A Path with zero packages has an entry with that content and an empty
package list. -/
theorem Project_items (eng : Engine) (gen : Generator) (input : GoString) (t : eng.Tmpl)
    (hparse : eng.parse (str "vanity") input = .ok t)
    (hexec : ∀ p ∈ gen.paths, ∃ buf,
      eng.execute t (Data.project
        { Import := gen.host ++ p.path, Subpath := [], Repo := p.repo, Display := p.display,
          VCS := p.vcs, Host := gen.host }) = .ok buf)
    (hnd : (gen.paths.map (fun p => p.path)).Nodup) :
    ∃ out : Out, (Project eng gen input).1 = (some out, none)
      ∧ ∀ p ∈ gen.paths, ∀ buf,
          eng.execute t (Data.project
            { Import := gen.host ++ p.path, Subpath := [], Repo := p.repo,
              Display := p.display, VCS := p.vcs, Host := gen.host }) = .ok buf →
          out.Items.lookup p.path = some { PkgNames := p.packages, Content := bufBytes buf }
            ∧ (Slice.len p.packages = 0 →
                ∃ item : OutItem, out.Items.lookup p.path = some item
                  ∧ Slice.len item.PkgNames = 0 ∧ item.Content = bufBytes buf) := by
  refine ⟨{ items := collect eng t gen.host gen.paths ∅ }, ?_, ?_⟩
  · unfold Project
    rw [hparse]
    simp only
    rw [Project_loop_ok eng t gen.host gen.paths ∅ _ hexec]
  · intro p hp buf hbuf
    obtain ⟨pre, post, hsplit, hpost⟩ := split_of_nodup gen.paths hnd p hp
    have hlook : (collect eng t gen.host gen.paths ∅).lookup p.path
        = some { PkgNames := p.packages, Content := bufBytes buf } := by
      rw [hsplit, lookup_collect_last eng t gen.host pre p post ∅ hpost]
      have hb : eng.execute t (projectData gen.host p) = .ok buf := hbuf
      simp [itemOf, rendered, hb]
    exact ⟨hlook, fun hz => ⟨_, hlook, hz, rfl⟩⟩

/-- Witness of C4: the test generator with the toy engine; `/myothercoolproject` has no
packages and still has its content. -/
theorem Project_items_witness :
    (testGen.paths.map (fun p => p.path)).Nodup
      ∧ ∃ out : Out, (Project toyEngine testGen (str "x")).1 = (some out, none)
        ∧ out.Items.lookup (str "/myothercoolproject")
          = some { PkgNames := none,
                   Content := some (str "xgo.example.com/myothercoolproject") } := by
  refine ⟨by decide, ?_⟩
  have hexec : ∀ p ∈ testGen.paths, ∃ buf,
      toyEngine.execute (str "x") (Data.project
        { Import := testGen.host ++ p.path, Subpath := [], Repo := p.repo,
          Display := p.display, VCS := p.vcs, Host := testGen.host }) = .ok buf := by
    intro p hp
    simp only [testGen, List.mem_cons, List.mem_singleton, List.not_mem_nil, or_false] at hp
    rcases hp with rfl | rfl
    · exact ⟨_, rfl⟩
    · exact ⟨_, rfl⟩
  obtain ⟨out, hout, hitems⟩ :=
    Project_items toyEngine testGen (str "x") (str "x") rfl hexec (by decide)
  refine ⟨out, hout, ?_⟩
  exact (hitems
    { path := str "/myothercoolproject"
      repo := str "https://github.com/user/myothercoolproject"
      display := str ("https://github.com/user/myothercoolproject "
        ++ "https://github.com/user/myothercoolproject/tree/master\x7b/dir\x7d "
        ++ "https://github.com/user/myothercoolproject/blob/master\x7b/dir\x7d/\x7bfile\x7d#L\x7bline\x7d")
      vcs := str "git"
      packages := none } (by decide) _ rfl).1

/-- C5: `Index` executes the template against one context only: its Host is the host of
the generator, and its Vanity has the length of the list of Paths and holds at every
index `i` the pair (host ++ paths[i].path, paths[i].repo). Every execute call that
`Index` makes is against that context; when the template parses, `Index` makes exactly
one such call and returns the result of that execution. -/
theorem Index_data (eng : Engine) (gen : Generator) (input : GoString) :
    ∃ V : List vanity,
      V.length = gen.paths.length
        ∧ (∀ (i : Nat) (p : Path), gen.paths[i]? = some p →
            V[i]? = some { Path := gen.host ++ p.path, Repo := p.repo })
        ∧ (∀ d : Data, Call.execute d ∈ (Index eng gen input).2 →
            d = Data.index { Host := gen.host, Vanity := V })
        ∧ (∀ t : eng.Tmpl, eng.parse (str "index") input = .ok t →
            (Index eng gen input).2
                = [Call.parse (str "index") input,
                   Call.execute (Data.index { Host := gen.host, Vanity := V })]
              ∧ (∀ buf,
                  eng.execute t (Data.index { Host := gen.host, Vanity := V }) = .ok buf →
                  (Index eng gen input).1 = (bufBytes buf, none))
              ∧ (∀ err,
                  eng.execute t (Data.index { Host := gen.host, Vanity := V }) = .error err →
                  (Index eng gen input).1
                    = (none, some (str "failed to execute template: " ++ err)))) := by
  have hfill := Index_loop_fill gen.host gen.paths []
  simp only [List.length_nil, List.nil_append] at hfill
  have hcalls : ∀ t : eng.Tmpl, eng.parse (str "index") input = .ok t →
      (Index eng gen input).2
        = [Call.parse (str "index") input,
           Call.execute (Data.index
            { Host := gen.host
              Vanity := gen.paths.map
                (fun p => ({ Path := gen.host ++ p.path, Repo := p.repo } : vanity)) })] := by
    intro t hparse
    unfold Index
    rw [hparse]
    simp only [hfill]
    split <;> rfl
  refine ⟨gen.paths.map (fun p => ({ Path := gen.host ++ p.path, Repo := p.repo } : vanity)),
    by simp, ?_, ?_, ?_⟩
  · intro i p hp
    simp [List.getElem?_map, hp]
  · intro d hd
    cases hparse : eng.parse (str "index") input with
    | error err =>
      unfold Index at hd
      rw [hparse] at hd
      simp at hd
    | ok t =>
      rw [hcalls t hparse] at hd
      simpa using hd
  · intro t hparse
    refine ⟨hcalls t hparse, ?_, ?_⟩
    · intro buf hbuf
      unfold Index
      rw [hparse]
      simp only [hfill, hbuf]
    · intro err herr
      unfold Index
      rw [hparse]
      simp only [hfill, herr]

/-- Witness of C5: the test generator with the toy engine and template `x`. -/
theorem Index_data_witness :
    ∃ V : List vanity,
      V = [ { Path := str "go.example.com/mycoolproject",
              Repo := str "https://github.com/user/mycoolproject" },
            { Path := str "go.example.com/myothercoolproject",
              Repo := str "https://github.com/user/myothercoolproject" } ]
        ∧ (Index toyEngine testGen (str "x")).2
            = [Call.parse (str "index") (str "x"),
               Call.execute (Data.index { Host := str "go.example.com", Vanity := V })] := by
  obtain ⟨V, hlen, hget, -, hparsed⟩ := Index_data toyEngine testGen (str "x")
  refine ⟨V, ?_, (hparsed (str "x") rfl).1⟩
  have h0 := hget 0 _ rfl
  have h1 := hget 1 _ rfl
  have hl : V.length = 2 := hlen
  match V, hl, h0, h1 with
  | [a, b], _, h0, h1 =>
    simp only [List.getElem?_cons_zero, List.getElem?_cons_succ, Option.some.injEq] at h0 h1
    subst h0 h1
    decide

/-- What `Project` returns when the template parses. -/
theorem Project_of_parse (eng : Engine) (gen : Generator) (input : GoString) (t : eng.Tmpl)
    (hparse : eng.parse (str "vanity") input = .ok t) :
    Project eng gen input
      = Project.loop eng t gen.host gen.paths ∅ [Call.parse (str "vanity") input] := by
  unfold Project
  rw [hparse]

/-- A successful `Project` parsed the template, executed it on every Path and returns
the collected map. -/
theorem Project_ok (eng : Engine) (gen : Generator) (input : GoString) (out : Out)
    (h : (Project eng gen input).1 = (some out, none)) :
    ∃ t, eng.parse (str "vanity") input = .ok t
      ∧ (∀ p ∈ gen.paths, ∃ buf, eng.execute t (projectData gen.host p) = .ok buf)
      ∧ out.items = collect eng t gen.host gen.paths ∅ := by
  cases hparse : eng.parse (str "vanity") input with
  | error err =>
    unfold Project at h
    rw [hparse] at h
    simp at h
  | ok t =>
    refine ⟨t, rfl, ?_⟩
    rw [Project_of_parse eng gen input t hparse] at h
    rcases all_ok_or_failure eng t gen.host gen.paths with hall | hfail
    · refine ⟨hall, ?_⟩
      rw [Project_loop_ok eng t gen.host gen.paths ∅ _ hall] at h
      simp only [Prod.mk.injEq, Option.some.injEq, and_true] at h
      rw [← h]
    · obtain ⟨pre, p, post, err, hsplit, hpre, hp⟩ := first_failure eng t gen.host gen.paths hfail
      rw [hsplit, Project_loop_fail eng t gen.host pre p post err ∅ _ hpre hp] at h
      simp at h

/-- C6 as stated fails: the keys `/a` and `/a/` are distinct keys of the paths mapping,
`New` succeeds on them, both resulting Paths have path `/a`, and `Project` renders one
item for the two Paths. -/
theorem New_paths_not_distinct :
    dupCfg.WellFormed
      ∧ New (decodeTo dupCfg) [] = (some dupGen, none)
      ∧ ¬ (dupGen.paths.map (fun p => p.path)).Nodup
      ∧ dupGen.paths.length = 2
      ∧ (Project toyEngine dupGen (str "x")).1 = (some dupOut, none)
      ∧ mapLen dupOut.Items = 1 := by
  refine ⟨by decide, by decide, by decide, by decide, by decide, by decide⟩

/-- C6, amended: on a configuration on which `New` succeeds and whose keys stay pairwise
distinct once a trailing `/` is trimmed, the path values of the resulting Paths are
pairwise distinct, and for every project template that renders, the output of `Project`
has as many items as there are Paths. -/
theorem New_paths_distinct_of_trimmed_keys_distinct
    (unmarshal : List UInt8 → Except GoString config) (vanity : List UInt8) (cfg : config)
    (gen : Generator) (hparse : unmarshal vanity = .ok cfg)
    (hnew : New unmarshal vanity = (some gen, none))
    (hkeys : (cfg.Paths.map (fun x => TrimSuffix x.1 (str "/"))).Nodup) :
    (gen.paths.map (fun p => p.path)).Nodup
      ∧ ∀ (eng : Engine) (input : GoString) (out : Out),
          (Project eng gen input).1 = (some out, none) →
          mapLen out.Items = gen.paths.length := by
  obtain ⟨-, hgen⟩ := New_ok unmarshal vanity cfg gen hparse hnew
  have hpaths : gen.paths.map (fun p => p.path)
      = cfg.Paths.map (fun x => TrimSuffix x.1 (str "/")) := by
    subst hgen
    simp [resolved, Function.comp_def]
  have hnd : (gen.paths.map (fun p => p.path)).Nodup := hpaths ▸ hkeys
  refine ⟨hnd, ?_⟩
  intro eng input out hout
  obtain ⟨t, -, -, hitems⟩ := Project_ok eng gen input out hout
  unfold mapLen Out.Items
  rw [hitems, keys_collect, Finmap.keys_empty, Finset.empty_union,
    List.toFinset_card_of_nodup hnd, List.length_map]

/-- Witness of the amended C6: the test configuration, 2 Paths and 2 items. -/
theorem New_paths_distinct_of_trimmed_keys_distinct_witness :
    New (decodeTo testCfg) [] = (some testGen, none)
      ∧ (testCfg.Paths.map (fun x => TrimSuffix x.1 (str "/"))).Nodup
      ∧ (Project toyEngine testGen (str "x")).1 = (some testOut, none)
      ∧ mapLen testOut.Items = 2 := by
  have h := New_paths_distinct_of_trimmed_keys_distinct (decodeTo testCfg) [] testCfg testGen
    rfl (by decide) (by decide)
  exact ⟨by decide, by decide, by decide, h.2 toyEngine (str "x") testOut (by decide)⟩

/-- C7: when `Project` succeeds, a string `p` that is the path of no Path of the
generator has no entry in the output: the lookup reports absence, and indexing the map
yields the zero item, with nil Content and nil PkgNames. -/
theorem Project_absent (eng : Engine) (gen : Generator) (input : GoString) (out : Out)
    (hout : (Project eng gen input).1 = (some out, none)) (p : GoString)
    (hp : ∀ q ∈ gen.paths, q.path ≠ p) :
    out.Items.lookup p = none
      ∧ p ∉ out.Items.keys
      ∧ lookupOrZero out.Items p = OutItem.zero
      ∧ (lookupOrZero out.Items p).Content = none
      ∧ (lookupOrZero out.Items p).PkgNames = none := by
  obtain ⟨t, -, -, hitems⟩ := Project_ok eng gen input out hout
  have hlook : out.Items.lookup p = none := by
    unfold Out.Items
    rw [hitems, lookup_collect_of_not_mem eng t gen.host gen.paths ∅ p hp]
    exact Finmap.lookup_empty p
  refine ⟨hlook, ?_, ?_, ?_, ?_⟩
  · rw [Finmap.mem_keys]
    exact Finmap.lookup_eq_none.mp hlook
  all_goals simp [lookupOrZero, hlook, OutItem.zero]

/-- Witness of C7: `/mynonexistantproject` in the output for the test generator. -/
theorem Project_absent_witness :
    (Project toyEngine testGen (str "x")).1 = (some testOut, none)
      ∧ (∀ q ∈ testGen.paths, q.path ≠ str "/mynonexistantproject")
      ∧ testOut.Items.lookup (str "/mynonexistantproject") = none
      ∧ lookupOrZero testOut.Items (str "/mynonexistantproject") = OutItem.zero :=
  have h := Project_absent toyEngine testGen (str "x") testOut (by decide)
    (str "/mynonexistantproject") (by decide)
  ⟨by decide, by decide, h.1, h.2.2.1⟩

/-- C9: `Project` returns either an error and no output, or an output and no error;
it returns an error exactly when the template fails to parse or its execution fails for
some Path. After a parse failure no execute call is made; when the execution fails
first on `p`, the execute calls are those for the Paths up to `p`, in order, and none
for the Paths after `p`. -/
theorem Project_error_cases (eng : Engine) (gen : Generator) (input : GoString) :
    (((Project eng gen input).1.1 = none ∧ (Project eng gen input).1.2 ≠ none)
        ∨ ((Project eng gen input).1.1 ≠ none ∧ (Project eng gen input).1.2 = none))
      ∧ ((Project eng gen input).1.2 ≠ none ↔
          ((∃ err, eng.parse (str "vanity") input = .error err)
            ∨ ∃ t, eng.parse (str "vanity") input = .ok t
                ∧ ∃ p ∈ gen.paths, ∃ err,
                    eng.execute t (projectData gen.host p) = .error err))
      ∧ (∀ err, eng.parse (str "vanity") input = .error err →
          Project eng gen input
            = ((none, some (str "failed to parse input: " ++ err)),
                [Call.parse (str "vanity") input]))
      ∧ (∀ (t : eng.Tmpl) (pre : List Path) (p : Path) (post : List Path) (err : GoString),
          eng.parse (str "vanity") input = .ok t →
          gen.paths = pre ++ p :: post →
          (∀ q ∈ pre, ∃ buf, eng.execute t (projectData gen.host q) = .ok buf) →
          eng.execute t (projectData gen.host p) = .error err →
          Project eng gen input
            = ((none, some (str "failed to execute template: " ++ err)),
                Call.parse (str "vanity") input
                  :: (pre ++ [p]).map (fun q => Call.execute (projectData gen.host q)))) := by
  have hfailcase : ∀ (t : eng.Tmpl) (pre : List Path) (p : Path) (post : List Path)
      (err : GoString), eng.parse (str "vanity") input = .ok t →
      gen.paths = pre ++ p :: post →
      (∀ q ∈ pre, ∃ buf, eng.execute t (projectData gen.host q) = .ok buf) →
      eng.execute t (projectData gen.host p) = .error err →
      Project eng gen input
        = ((none, some (str "failed to execute template: " ++ err)),
            Call.parse (str "vanity") input
              :: (pre ++ [p]).map (fun q => Call.execute (projectData gen.host q))) := by
    intro t pre p post err hparse hsplit hpre hp
    rw [Project_of_parse eng gen input t hparse, hsplit,
      Project_loop_fail eng t gen.host pre p post err ∅ _ hpre hp]
    rfl
  have hparsefail : ∀ err, eng.parse (str "vanity") input = .error err →
      Project eng gen input
        = ((none, some (str "failed to parse input: " ++ err)),
            [Call.parse (str "vanity") input]) := by
    intro err herr
    unfold Project
    rw [herr]
  refine ⟨?_, ?_, hparsefail, hfailcase⟩
  · cases hparse : eng.parse (str "vanity") input with
    | error err =>
      rw [hparsefail err hparse]
      simp
    | ok t =>
      rcases all_ok_or_failure eng t gen.host gen.paths with hall | hfail
      · rw [Project_of_parse eng gen input t hparse,
          Project_loop_ok eng t gen.host gen.paths ∅ _ hall]
        simp
      · obtain ⟨pre, p, post, err, hsplit, hpre, hp⟩ :=
          first_failure eng t gen.host gen.paths hfail
        rw [hfailcase t pre p post err hparse hsplit hpre hp]
        simp
  · cases hparse : eng.parse (str "vanity") input with
    | error err =>
      rw [hparsefail err hparse]
      simp
    | ok t =>
      rcases all_ok_or_failure eng t gen.host gen.paths with hall | hfail
      · rw [Project_of_parse eng gen input t hparse,
          Project_loop_ok eng t gen.host gen.paths ∅ _ hall]
        simp only [ne_eq, not_true_eq_false, false_iff, not_or, not_exists,
          Except.ok.injEq, not_and, reduceCtorEq, not_false_eq_true, implies_true, true_and]
        intro t2 ht2 p hp err herr
        subst ht2
        obtain ⟨buf, hbuf⟩ := hall p hp
        rw [hbuf] at herr
        cases herr
      · obtain ⟨pre, p, post, err, hsplit, hpre, hp⟩ :=
          first_failure eng t gen.host gen.paths hfail
        rw [hfailcase t pre p post err hparse hsplit hpre hp]
        simp only [ne_eq, reduceCtorEq, not_false_eq_true, true_iff]
        exact Or.inr ⟨t, rfl, hfail⟩

/-- Witness of C9: with the toy engine the second Path of `hgGen` fails; the third
Path is not attempted. An empty template fails to parse and nothing is executed. -/
theorem Project_error_cases_witness :
    Project toyEngine hgGen (str "x")
        = ((none, some (str "failed to execute template: hg")),
            [Call.parse (str "vanity") (str "x"),
             Call.execute (Data.project
              { Import := str "h/a", Subpath := [], Repo := str "r1", Display := [],
                VCS := str "git", Host := str "h" }),
             Call.execute (Data.project
              { Import := str "h/b", Subpath := [], Repo := str "r2", Display := [],
                VCS := str "hg", Host := str "h" })])
      ∧ Project toyEngine hgGen []
        = ((none, some (str "failed to parse input: empty")),
            [Call.parse (str "vanity") []]) :=
  ⟨((Project_error_cases toyEngine hgGen (str "x")).2.2.2 (str "x")
      [{ path := str "/a", repo := str "r1", display := [], vcs := str "git", packages := none }]
      { path := str "/b", repo := str "r2", display := [], vcs := str "hg", packages := none }
      [{ path := str "/c", repo := str "r3", display := [], vcs := str "git", packages := none }]
      (str "hg") rfl rfl
      (by
        intro q hq
        rw [List.mem_singleton] at hq
        subst hq
        exact ⟨_, rfl⟩)
      rfl).trans (by decide),
   ((Project_error_cases toyEngine hgGen []).2.2.1 (str "empty") rfl).trans (by decide)⟩

/-- `Project` returns no error exactly when the template parses and executes on every
Path. -/
theorem Project_no_error_iff (eng : Engine) (gen : Generator) (input : GoString) :
    (Project eng gen input).1.2 = none ↔
      ∃ t, eng.parse (str "vanity") input = .ok t
        ∧ ∀ p ∈ gen.paths, ∃ buf, eng.execute t (projectData gen.host p) = .ok buf := by
  cases hparse : eng.parse (str "vanity") input with
  | error err =>
    unfold Project
    rw [hparse]
    simp
  | ok t =>
    rw [Project_of_parse eng gen input t hparse]
    rcases all_ok_or_failure eng t gen.host gen.paths with hall | hfail
    · rw [Project_loop_ok eng t gen.host gen.paths ∅ _ hall]
      simp only [true_iff]
      exact ⟨t, rfl, hall⟩
    · obtain ⟨pre, p, post, err, hsplit, hpre, hp⟩ := first_failure eng t gen.host gen.paths hfail
      rw [hsplit, Project_loop_fail eng t gen.host pre p post err ∅ _ hpre hp]
      simp only [reduceCtorEq, false_iff, not_exists, not_and]
      intro t2 ht2 hall
      cases ht2
      obtain ⟨buf, hbuf⟩ := hall p (by simp)
      rw [hbuf] at hp
      cases hp

/-- Collecting two permutations of a list with pairwise distinct paths gives one map. -/
theorem collect_perm (eng : Engine) (t : eng.Tmpl) (host : GoString) (ps qs : List Path)
    (hperm : ps.Perm qs) (hnd : (ps.map (fun p => p.path)).Nodup) :
    collect eng t host ps ∅ = collect eng t host qs ∅ := by
  have hnd2 : (qs.map (fun p => p.path)).Nodup := (hperm.map _).nodup_iff.mp hnd
  apply Finmap.ext_lookup
  intro k
  by_cases hk : ∃ p ∈ ps, p.path = k
  · obtain ⟨p, hp, rfl⟩ := hk
    obtain ⟨pre, post, hsplit, hpost⟩ := split_of_nodup ps hnd p hp
    obtain ⟨pre2, post2, hsplit2, hpost2⟩ := split_of_nodup qs hnd2 p (hperm.mem_iff.mp hp)
    rw [hsplit, lookup_collect_last eng t host pre p post ∅ hpost, hsplit2,
      lookup_collect_last eng t host pre2 p post2 ∅ hpost2]
  · have h1 : ∀ q ∈ ps, q.path ≠ k := fun q hq heq => hk ⟨q, hq, heq⟩
    have h2 : ∀ q ∈ qs, q.path ≠ k := fun q hq heq => hk ⟨q, hperm.mem_iff.mpr hq, heq⟩
    rw [lookup_collect_of_not_mem eng t host ps ∅ k h1,
      lookup_collect_of_not_mem eng t host qs ∅ k h2]

/-- C10: for two Generators with the same host whose lists of Paths are permutations of
one another with pairwise distinct path values, `Project` succeeds on one exactly when
it succeeds on the other, and on success the two output maps are equal. Without the
distinctness hypothesis, the entry under a path is the item of the last Path of the list
with that path. -/
theorem Project_order_independent (eng : Engine) (g1 g2 : Generator) (input : GoString) :
    (g1.host = g2.host → g1.paths.Perm g2.paths → (g1.paths.map (fun p => p.path)).Nodup →
        ((Project eng g1 input).1.2 = none ↔ (Project eng g2 input).1.2 = none)
          ∧ ∀ o1 o2 : Out, (Project eng g1 input).1 = (some o1, none) →
              (Project eng g2 input).1 = (some o2, none) → o1.Items = o2.Items)
      ∧ (∀ (t : eng.Tmpl) (pre : List Path) (p : Path) (post : List Path) (out : Out)
          (buf : List UInt8),
          eng.parse (str "vanity") input = .ok t →
          g1.paths = pre ++ p :: post → (∀ q ∈ post, q.path ≠ p.path) →
          (Project eng g1 input).1 = (some out, none) →
          eng.execute t (projectData g1.host p) = .ok buf →
          out.Items.lookup p.path
            = some { PkgNames := p.packages, Content := bufBytes buf }) := by
  constructor
  · intro hhost hperm hnd
    constructor
    · rw [Project_no_error_iff, Project_no_error_iff, hhost]
      constructor
      · rintro ⟨t, ht, hall⟩
        exact ⟨t, ht, fun p hp => hall p (hperm.mem_iff.mpr hp)⟩
      · rintro ⟨t, ht, hall⟩
        exact ⟨t, ht, fun p hp => hall p (hperm.mem_iff.mp hp)⟩
    · intro o1 o2 h1 h2
      obtain ⟨t1, ht1, -, hitems1⟩ := Project_ok eng g1 input o1 h1
      obtain ⟨t2, ht2, -, hitems2⟩ := Project_ok eng g2 input o2 h2
      rw [ht1] at ht2
      cases ht2
      unfold Out.Items
      rw [hitems1, hitems2, ← hhost]
      exact collect_perm eng t1 g1.host g1.paths g2.paths hperm hnd
  · intro t pre p post out buf hparse hsplit hpost hout hbuf
    obtain ⟨t2, ht2, -, hitems⟩ := Project_ok eng g1 input out hout
    rw [hparse] at ht2
    cases ht2
    unfold Out.Items
    rw [hitems, hsplit, lookup_collect_last eng t g1.host pre p post ∅ hpost]
    simp [itemOf, rendered, hbuf]

/-- Witness of C10: the test generator and the same Paths in reverse order render the
same map; in `dupGen` the entry under `/a` is the item of the second Path. -/
theorem Project_order_independent_witness :
    (testGen.host = testGenSwapped.host ∧ testGen.paths.Perm testGenSwapped.paths
        ∧ (testGen.paths.map (fun p => p.path)).Nodup
        ∧ (Project toyEngine testGen (str "x")).1 = (some testOut, none)
        ∧ (Project toyEngine testGenSwapped (str "x")).1 = (some testOutSwapped, none)
        ∧ testOut.Items = testOutSwapped.Items)
      ∧ ((Project toyEngine dupGen (str "x")).1 = (some dupOut, none)
        ∧ dupOut.Items.lookup (str "/a")
          = some { PkgNames := some [str "p"], Content := some (str "xgo.example.com/a") }) := by
  have hperm : testGen.paths.Perm testGenSwapped.paths := (List.reverse_perm _).symm
  have h := ((Project_order_independent toyEngine testGen testGenSwapped (str "x")).1 rfl hperm
    (by decide)).2 testOut testOutSwapped (by decide) (by decide)
  have h2 := (Project_order_independent toyEngine dupGen dupGen (str "x")).2 (str "x")
    [{ path := str "/a"
       repo := str "https://github.com/u/a"
       display := str ("https://github.com/u/a "
         ++ "https://github.com/u/a/tree/master\x7b/dir\x7d "
         ++ "https://github.com/u/a/blob/master\x7b/dir\x7d/\x7bfile\x7d#L\x7bline\x7d")
       vcs := str "git"
       packages := none }]
    { path := str "/a", repo := str "https://github.com/u/b", display := str "d",
      vcs := str "git", packages := some [str "p"] }
    [] dupOut (str "xgo.example.com/a") rfl rfl (by simp) (by decide) rfl
  exact ⟨⟨rfl, hperm, by decide, by decide, by decide, h⟩, by decide, h2⟩

end GoVanity
